import Mathlib

/-!
Verification of the course-platform scraper (Infosec_and_vulnerabilities
repository) against its natural-language specification.

The Python source is shallowly embedded: strings are `List Char`, Python
`float` arithmetic is modelled exactly over `ℚ` (every value the claims
exercise is decimal-representable and far from rounding ties), fallible
code returns `Option`/`Except`, and the `while` loops of the scrapers are
given explicit fuel equal to their loop bounds (the retry loop is bounded
by `max_retries` in the source; the pagination loop has no bound in the
source, so fuel models the number of iterations actually executed).
-/

/-! ## Python string primitives (str.lower, str.strip, `in`, str.split) -/

/-- Python `str.lower()` restricted to ASCII, as the selectors and
synonym tables in the source are all ASCII. -/
def lowerStr (s : List Char) : List Char := s.map Char.toLower

/-- Whitespace recognised by Python `str.strip()` (ASCII subset). -/
def isSpaceChar (c : Char) : Bool := c = ' ' || c = '\t' || c = '\n' || c = '\r'

/-- Python `str.strip()` with no arguments: drop leading and trailing
whitespace. Also models BeautifulSoup `get_text(strip=True)`. -/
def trimStr (s : List Char) : List Char :=
  ((s.dropWhile isSpaceChar).reverse.dropWhile isSpaceChar).reverse

/-- Python `pat in s` for strings: substring containment. -/
def containsSub (pat : List Char) : List Char → Bool
  | [] => pat.isEmpty
  | c :: rest => List.isPrefixOf pat (c :: rest) || containsSub pat rest

/-- Python `s.split(sep)` for a one-character separator (the source
splits on `"."` only through `float`, handled below via this). -/
def splitOnChar (sep : Char) : List Char → List (List Char)
  | [] => [[]]
  | c :: rest =>
    if c = sep then [] :: splitOnChar sep rest
    else
      match splitOnChar sep rest with
      | [] => [[c]]
      | t :: ts => (c :: t) :: ts

/-- Python `s.split("of")`: the one multi-character split the source
performs (user_scraper.py line 355), specialised to its separator so the
definition stays structurally recursive. -/
def splitOnOf : List Char → List (List Char)
  | [] => [[]]
  | [c] => [[c]]
  | c1 :: c2 :: rest =>
    if c1 = 'o' ∧ c2 = 'f' then [] :: splitOnOf rest
    else
      match splitOnOf (c2 :: rest) with
      | [] => [[c1]]
      | t :: ts => (c1 :: t) :: ts

/-- Python `s.split()` with no arguments: split on whitespace runs,
dropping empty tokens. -/
def wsSplit (s : List Char) : List (List Char) :=
  let step := fun (acc : List (List Char) × List Char) (c : Char) =>
    if isSpaceChar c then
      (if acc.2.isEmpty then acc else (acc.1 ++ [acc.2.reverse], []))
    else (acc.1, c :: acc.2)
  let r := s.foldl step ([], [])
  if r.2.isEmpty then r.1 else r.1 ++ [r.2.reverse]

def isDigitChar (c : Char) : Bool := '0' ≤ c && c ≤ '9'

def digitVal (c : Char) : ℕ := c.toNat - '0'.toNat

def natFromDigits (ds : List Char) : ℕ :=
  ds.foldl (fun a c => a * 10 + digitVal c) 0

/-- Python `int(s)` on a string: strip whitespace, optional sign, one or
more digits (underscore separators are not used by the source's inputs
and are not modelled). Returns `none` where Python raises `ValueError`. -/
def parseIntPy (s : List Char) : Option ℤ :=
  let t := trimStr s
  let signAndDigits : ℤ × List Char :=
    match t with
    | '+' :: r => (1, r)
    | '-' :: r => (-1, r)
    | r => (1, r)
  if signAndDigits.2 ≠ [] ∧ signAndDigits.2.all isDigitChar then
    some (signAndDigits.1 * (natFromDigits signAndDigits.2 : ℤ))
  else none

/-- Python `float(s)` on a string, for the plain decimal forms the source
feeds it (optional sign, digits, at most one dot, at least one digit);
exponent/inf/nan spellings never arise from the scraped inputs and are
not modelled. Returns `none` where Python raises `ValueError`. -/
def parseFloatPy (s : List Char) : Option ℚ :=
  let t := trimStr s
  let signAndBody : ℚ × List Char :=
    match t with
    | '+' :: r => (1, r)
    | '-' :: r => (-1, r)
    | r => (1, r)
  let parts := splitOnChar '.' signAndBody.2
  match parts with
  | [ip] =>
    if ip ≠ [] ∧ ip.all isDigitChar then
      some (signAndBody.1 * (natFromDigits ip : ℚ))
    else none
  | [ip, fp] =>
    if (ip ≠ [] ∨ fp ≠ []) ∧ ip.all isDigitChar ∧ fp.all isDigitChar then
      some (signAndBody.1 *
        ((natFromDigits ip : ℚ) + (natFromDigits fp : ℚ) / (10 : ℚ) ^ fp.length))
    else none
  | _ => none

/-- Python `round(x, 2)`: round to 2 decimal places, ties to even
(banker's rounding, the semantics of Python's built-in `round`). -/
def round2 (x : ℚ) : ℚ :=
  let y : ℚ := x * 100
  let n : ℤ := Int.floor y
  let r : ℚ := y - n
  (if r < 1/2 then (n : ℚ)
   else if r > 1/2 then ((n + 1 : ℤ) : ℚ)
   else if n % 2 = 0 then (n : ℚ) else ((n + 1 : ℤ) : ℚ)) / 100

/-! ## config/settings.py (request settings, lines 89–94) -/

def MAX_RETRIES : ℕ := 3

def RETRY_BACKOFF_FACTOR : ℚ := 1/2

def RETRY_STATUS_FORCELIST : List ℕ := [429, 500, 502, 503, 504]

def REQUEST_DELAY : ℚ := 3

/-! ## `_fetch_with_retry` (user_scraper.py 211–253, financial_scraper.py
169–211; the two bodies are character-for-character identical apart from
the exception class raised, so one embedding covers both)

One underlying call is `self.session.get(url, ...)` followed by
`response.raise_for_status()`: the modelled outcome of a call is either
a network-level `requests` exception or an HTTP response with a status
and a body; `raise_for_status` raises `requests.HTTPError` (a subclass of
`RequestException`) exactly for statuses in [400, 600). -/

inductive AttemptResult where
  | netErr
  | response (status : ℕ) (body : List Char)
deriving DecidableEq

/-- `response.raise_for_status()` raises for 4xx and 5xx statuses. -/
def raisesForStatus (st : ℕ) : Bool := 400 ≤ st && st < 600

/-- Whether one underlying call raises a `requests.RequestException`
(network failure, or `raise_for_status` on a 4xx/5xx response). -/
def attemptFails (a : AttemptResult) : Bool :=
  match a with
  | .netErr => true
  | .response st _ => raisesForStatus st

/-- Body of a successful (non-raising) attempt. -/
def attemptBody (a : AttemptResult) : List Char :=
  match a with
  | .netErr => []
  | .response _ body => body

instance {ε α : Type} [DecidableEq ε] [DecidableEq α] : DecidableEq (Except ε α) := by
  intro x y
  cases x <;> cases y
  case ok.ok a b =>
    exact if h : a = b then .isTrue (by rw [h]) else .isFalse (by intro hc; cases hc; exact h rfl)
  case error.error a b =>
    exact if h : a = b then .isTrue (by rw [h]) else .isFalse (by intro hc; cases hc; exact h rfl)
  case ok.error a b => exact .isFalse (by intro hc; cases hc)
  case error.ok a b => exact .isFalse (by intro hc; cases hc)

/-- Observable behaviour of one `_fetch_with_retry` run: the returned body
or the terminal `UserScrapingError`/`FinancialScrapingError` (carrying the
URL and the attempt count from the f-string on the raise), the number of
underlying `session.get` calls, and the `time.sleep` durations in order. -/
structure RetryTrace where
  result : Except (List Char × ℕ) (List Char)
  calls : ℕ
  sleeps : List ℚ
deriving DecidableEq

/-- The `while retry_count < max_retries` loop of `_fetch_with_retry`,
with `remaining = max_retries - retry_count` made explicit as the
structural recursion measure. On a `RequestException` the source
increments `retry_count` and sleeps `2 ** retry_count` (the literal 2
from line 246 / 204, not a configured value) before re-entering the loop
test; falling out of the loop raises the fetch-failed error naming the
URL and `max_retries`. -/
def fetchGo (outcomes : ℕ → AttemptResult) (url : List Char) (maxRetries : ℕ) :
    ℕ → ℕ → RetryTrace
  | 0, _ => ⟨.error (url, maxRetries), 0, []⟩
  | rem + 1, rc =>
    match outcomes rc with
    | .netErr =>
      let t := fetchGo outcomes url maxRetries rem (rc + 1)
      ⟨t.result, t.calls + 1, (2 : ℚ) ^ (rc + 1) :: t.sleeps⟩
    | .response st body =>
      if raisesForStatus st then
        let t := fetchGo outcomes url maxRetries rem (rc + 1)
        ⟨t.result, t.calls + 1, (2 : ℚ) ^ (rc + 1) :: t.sleeps⟩
      else ⟨.ok body, 1, []⟩

/-- `_fetch_with_retry(url, max_retries)` where `outcomes i` is what the
i-th underlying call (0-indexed) would produce. -/
def fetchWithRetry (outcomes : ℕ → AttemptResult) (url : List Char)
    (maxRetries : ℕ) : RetryTrace :=
  fetchGo outcomes url maxRetries maxRetries 0

/-! ### Behaviour of the retry loop -/

theorem fetchGo_calls_le (outcomes : ℕ → AttemptResult) (url : List Char)
    (maxR : ℕ) : ∀ rem rc, (fetchGo outcomes url maxR rem rc).calls ≤ rem := by
  intro rem
  induction rem with
  | zero => intro rc; simp [fetchGo]
  | succ n ih =>
    intro rc
    simp only [fetchGo]
    cases outcomes rc with
    | netErr => simpa using Nat.succ_le_succ (ih (rc + 1))
    | response st body =>
      by_cases h : raisesForStatus st = true
      · simp only [h, if_true]
        simpa using Nat.succ_le_succ (ih (rc + 1))
      · simp only [eq_false_of_ne_true h]
        simp only [Bool.false_eq_true, if_false]
        exact Nat.succ_le_succ (Nat.zero_le n)

theorem fetchGo_allFail (outcomes : ℕ → AttemptResult) (url : List Char)
    (maxR : ℕ) : ∀ rem rc,
    (∀ i, i < rem → attemptFails (outcomes (rc + i)) = true) →
    fetchGo outcomes url maxR rem rc =
      ⟨.error (url, maxR), rem, (List.range' (rc + 1) rem).map (fun k => (2 : ℚ) ^ k)⟩ := by
  intro rem
  induction rem with
  | zero => intro rc _; rfl
  | succ n ih =>
    intro rc hfail
    have h0 : attemptFails (outcomes rc) = true := by
      have := hfail 0 (Nat.succ_pos n)
      simpa using this
    have hrec := ih (rc + 1) (by
      intro i hi
      have := hfail (i + 1) (by omega)
      have harith : rc + (i + 1) = rc + 1 + i := by omega
      rwa [harith] at this)
    have hrange : List.range' (rc + 1) (n + 1) = (rc + 1) :: List.range' (rc + 2) n :=
      List.range'_succ (rc + 1) n 1
    simp only [fetchGo]
    cases houtcome : outcomes rc with
    | netErr =>
      simp only [hrec, hrange]
      rfl
    | response st body =>
      have hr : raisesForStatus st = true := by
        rw [houtcome] at h0
        simpa [attemptFails] using h0
      simp only [hr, if_true, hrec, hrange]
      rfl

theorem fetchGo_firstSuccess (outcomes : ℕ → AttemptResult) (url : List Char)
    (maxR : ℕ) : ∀ j rem rc, j < rem →
    (∀ i, i < j → attemptFails (outcomes (rc + i)) = true) →
    attemptFails (outcomes (rc + j)) = false →
    fetchGo outcomes url maxR rem rc =
      ⟨.ok (attemptBody (outcomes (rc + j))), j + 1,
        (List.range' (rc + 1) j).map (fun k => (2 : ℚ) ^ k)⟩ := by
  intro j
  induction j with
  | zero =>
    intro rem rc hlt _ hsucc
    obtain ⟨n, rfl⟩ : ∃ n, rem = n + 1 := ⟨rem - 1, by omega⟩
    simp only [Nat.add_zero] at hsucc
    simp only [fetchGo]
    cases houtcome : outcomes rc with
    | netErr =>
      rw [houtcome] at hsucc
      simp [attemptFails] at hsucc
    | response st body =>
      rw [houtcome] at hsucc
      have hr : raisesForStatus st = false := by simpa [attemptFails] using hsucc
      simp only [hr, houtcome, Nat.add_zero, attemptBody]
      rfl
  | succ m ih =>
    intro rem rc hlt hfail hsucc
    obtain ⟨n, rfl⟩ : ∃ n, rem = n + 1 := ⟨rem - 1, by omega⟩
    have h0 : attemptFails (outcomes rc) = true := by
      have := hfail 0 (Nat.succ_pos m)
      simpa using this
    have hrec := ih n (rc + 1) (by omega)
      (by
        intro i hi
        have := hfail (i + 1) (by omega)
        have harith : rc + (i + 1) = rc + 1 + i := by omega
        rwa [harith] at this)
      (by
        have harith : rc + (m + 1) = rc + 1 + m := by omega
        rwa [harith] at hsucc)
    have hbody : rc + 1 + m = rc + (m + 1) := by omega
    have hrange : List.range' (rc + 1) (m + 1) = (rc + 1) :: List.range' (rc + 2) m :=
      List.range'_succ (rc + 1) m 1
    simp only [fetchGo]
    cases houtcome : outcomes rc with
    | netErr =>
      simp only [hrec, hbody, hrange]
      rfl
    | response st body =>
      have hr : raisesForStatus st = true := by
        rw [houtcome] at h0
        simpa [attemptFails] using h0
      simp only [hr, if_true, hrec, hbody, hrange]
      rfl

theorem fetchGo_ok_calls (outcomes : ℕ → AttemptResult) (url : List Char)
    (maxR : ℕ) : ∀ rem rc b,
    (fetchGo outcomes url maxR rem rc).result = .ok b →
    1 ≤ (fetchGo outcomes url maxR rem rc).calls := by
  intro rem
  induction rem with
  | zero => intro rc b h; simp [fetchGo] at h
  | succ n _ =>
    intro rc b h
    simp only [fetchGo]
    cases houtcome : outcomes rc with
    | netErr => simp
    | response st body =>
      by_cases hr : raisesForStatus st = true
      · simp [hr]
      · simp [eq_false_of_ne_true hr]

theorem fetchGo_calls_ge (outcomes : ℕ → AttemptResult) (url : List Char)
    (maxR : ℕ) : ∀ m rem rc, m < rem →
    (∀ i, i < m → attemptFails (outcomes (rc + i)) = true) →
    m + 1 ≤ (fetchGo outcomes url maxR rem rc).calls := by
  intro m
  induction m with
  | zero =>
    intro rem rc hlt _
    obtain ⟨n, rfl⟩ : ∃ n, rem = n + 1 := ⟨rem - 1, by omega⟩
    simp only [fetchGo]
    cases outcomes rc with
    | netErr => simp
    | response st body =>
      by_cases hr : raisesForStatus st = true
      · simp [hr]
      · simp [eq_false_of_ne_true hr]
  | succ k ih =>
    intro rem rc hlt hfail
    obtain ⟨n, rfl⟩ : ∃ n, rem = n + 1 := ⟨rem - 1, by omega⟩
    have h0 : attemptFails (outcomes rc) = true := by
      have := hfail 0 (Nat.succ_pos k)
      simpa using this
    have hrec := ih n (rc + 1) (by omega) (by
      intro i hi
      have := hfail (i + 1) (by omega)
      have harith : rc + (i + 1) = rc + 1 + i := by omega
      rwa [harith] at this)
    simp only [fetchGo]
    cases houtcome : outcomes rc with
    | netErr =>
      simp only []
      omega
    | response st body =>
      have hr : raisesForStatus st = true := by
        rw [houtcome] at h0
        simpa [attemptFails] using h0
      simp only [hr, if_true]
      omega

theorem fetchGo_sleeps (outcomes : ℕ → AttemptResult) (url : List Char)
    (maxR : ℕ) : ∀ rem rc,
    (fetchGo outcomes url maxR rem rc).sleeps =
      (List.range' (rc + 1)
        (match (fetchGo outcomes url maxR rem rc).result with
         | .ok _ => (fetchGo outcomes url maxR rem rc).calls - 1
         | .error _ => (fetchGo outcomes url maxR rem rc).calls)).map
        (fun k => (2 : ℚ) ^ k) := by
  intro rem
  induction rem with
  | zero => intro rc; rfl
  | succ n ih =>
    intro rc
    have hrec := ih (rc + 1)
    simp only [fetchGo]
    cases houtcome : outcomes rc with
    | netErr =>
      simp only []
      cases hres : (fetchGo outcomes url maxR n (rc + 1)).result with
      | ok b =>
        have hpos := fetchGo_ok_calls outcomes url maxR n (rc + 1) b hres
        rw [hres] at hrec
        simp only [hrec]
        have hc : (fetchGo outcomes url maxR n (rc + 1)).calls + 1 - 1 =
            ((fetchGo outcomes url maxR n (rc + 1)).calls - 1) + 1 := by omega
        rw [hc, List.range'_succ (rc + 1) _ 1]
        rfl
      | error e =>
        rw [hres] at hrec
        simp only [hrec]
        rw [List.range'_succ (rc + 1) _ 1]
        rfl
    | response st body =>
      by_cases hr : raisesForStatus st = true
      · simp only [hr, if_true]
        cases hres : (fetchGo outcomes url maxR n (rc + 1)).result with
        | ok b =>
          have hpos := fetchGo_ok_calls outcomes url maxR n (rc + 1) b hres
          rw [hres] at hrec
          simp only [hrec]
          have hc : (fetchGo outcomes url maxR n (rc + 1)).calls + 1 - 1 =
              ((fetchGo outcomes url maxR n (rc + 1)).calls - 1) + 1 := by omega
          rw [hc, List.range'_succ (rc + 1) _ 1]
          rfl
        | error e =>
          rw [hres] at hrec
          simp only [hrec]
          rw [List.range'_succ (rc + 1) _ 1]
          rfl
      · simp [eq_false_of_ne_true hr]

/-- Outcome sequence whose first call fails with a network error and whose
later calls return HTTP 200. -/
def failThenOk : ℕ → AttemptResult :=
  fun i => if i = 0 then .netErr else .response 200 "body".data

/-- Outcome sequence in which every call returns HTTP 404 (a client error
outside the configured retryable status set). -/
def always404 : ℕ → AttemptResult := fun _ => .response 404 []

/-- C1: `_fetch_with_retry` makes at most `maxRetries` underlying calls;
a first success at (0-indexed) attempt `k < maxRetries` returns that
response's body after exactly `k + 1` calls (failures + 1), and if the
first `maxRetries` attempts all fail it raises the fetch-failed error
naming the URL and the attempt count after exactly `maxRetries` calls,
never returning silently. -/
theorem fetchWithRetry_callBound (outcomes : ℕ → AttemptResult)
    (url : List Char) (maxRetries k : ℕ) :
    (fetchWithRetry outcomes url maxRetries).calls ≤ maxRetries ∧
    (k < maxRetries →
      (∀ i, i < k → attemptFails (outcomes i) = true) →
      attemptFails (outcomes k) = false →
      (fetchWithRetry outcomes url maxRetries).result =
          .ok (attemptBody (outcomes k)) ∧
      (fetchWithRetry outcomes url maxRetries).calls = k + 1) ∧
    ((∀ i, i < maxRetries → attemptFails (outcomes i) = true) →
      (fetchWithRetry outcomes url maxRetries).result = .error (url, maxRetries) ∧
      (fetchWithRetry outcomes url maxRetries).calls = maxRetries) := by
  refine ⟨fetchGo_calls_le outcomes url maxRetries maxRetries 0, ?_, ?_⟩
  · intro hk hfail hsucc
    have h := fetchGo_firstSuccess outcomes url maxRetries k maxRetries 0 hk
      (by intro i hi; simpa using hfail i hi) (by simpa using hsucc)
    unfold fetchWithRetry
    rw [h]
    exact ⟨by simp, rfl⟩
  · intro hfail
    have h := fetchGo_allFail outcomes url maxRetries maxRetries 0
      (by intro i hi; simpa using hfail i hi)
    unfold fetchWithRetry
    rw [h]
    exact ⟨rfl, rfl⟩

/-- Witness for C1: one network failure followed by a 200 response, with
`maxRetries = 3`, returns the page body after exactly 2 calls. -/
theorem fetchWithRetry_callBound_witness :
    (fetchWithRetry failThenOk "u".data 3).result = .ok "body".data ∧
    (fetchWithRetry failThenOk "u".data 3).calls = 2 := by
  have h := (fetchWithRetry_callBound failThenOk "u".data 3 1).2.1
    (by decide) (by decide) (by decide)
  exact ⟨h.1.trans (by decide), h.2⟩

/-- Counterexample to C2: HTTP 404 is not in the configured retryable set
`RETRY_STATUS_FORCELIST`, yet a run whose every call returns 404 performs
all 3 underlying calls instead of failing after the first — the retry
wrapper never consults the retryable set and retries every
`requests.RequestException` alike. -/
theorem retryNonTransient_counterexample :
    (fetchWithRetry always404 "u".data 3).calls = 3 ∧
    404 ∉ RETRY_STATUS_FORCELIST ∧
    raisesForStatus 404 = true := by
  refine ⟨by decide, by decide, by decide⟩

/-- C2 (amended): the retry wrapper retries on every
`requests.RequestException` — network failures and every HTTP status in
[400, 600) alike, whether or not the status is in
`RETRY_STATUS_FORCELIST` — so after `k + 1` leading failures of any kind
at least `k + 2` underlying calls happen whenever attempts remain; only
the exhaustion of `maxRetries` stops it. -/
theorem fetchWithRetry_retriesAnyError (outcomes : ℕ → AttemptResult)
    (url : List Char) (maxRetries k : ℕ) :
    k + 1 < maxRetries →
    (∀ i, i ≤ k → attemptFails (outcomes i) = true) →
    k + 2 ≤ (fetchWithRetry outcomes url maxRetries).calls := by
  intro hk hfail
  have h := fetchGo_calls_ge outcomes url maxRetries (k + 1) maxRetries 0 hk
    (by intro i hi; simpa using hfail i (by omega))
  simpa using h

/-- Witness for the amended C2: a first-call 404 with `maxRetries = 3`
leads to a second underlying call. -/
theorem fetchWithRetry_retriesAnyError_witness :
    2 ≤ (fetchWithRetry always404 "u".data 3).calls :=
  fetchWithRetry_retriesAnyError always404 "u".data 3 0 (by decide) (by decide)

/-- Counterexample to C8: after the first failed attempt the wrapper
sleeps 2 seconds (the hardcoded `2 ** retry_count` of the source), not
`RETRY_BACKOFF_FACTOR ^ 1 = 0.5` seconds as the configured backoff factor
would dictate. -/
theorem backoffBase_counterexample :
    (fetchWithRetry failThenOk "u".data 3).sleeps = [(2 : ℚ)] ∧
    RETRY_BACKOFF_FACTOR ^ (1 : ℕ) ≠ (2 : ℚ) := by
  refine ⟨by decide, by norm_num [RETRY_BACKOFF_FACTOR]⟩

/-- C8 (amended): before retry attempt `k` (1-indexed) the wrapper sleeps
`2 ^ k` seconds — exponential backoff with the hardcoded base 2 of
`wait_time = 2 ** retry_count`, not the configured
`RETRY_BACKOFF_FACTOR`; over a whole run the sleep sequence is exactly
`2^1, …, 2^f` where `f` counts the failed calls (so a sleep also follows
the final failure of an exhausted run). -/
theorem fetchWithRetry_backoffSleeps (outcomes : ℕ → AttemptResult)
    (url : List Char) (maxRetries : ℕ) :
    (fetchWithRetry outcomes url maxRetries).sleeps =
      (List.range' 1
        (match (fetchWithRetry outcomes url maxRetries).result with
         | .ok _ => (fetchWithRetry outcomes url maxRetries).calls - 1
         | .error _ => (fetchWithRetry outcomes url maxRetries).calls)).map
        (fun k => (2 : ℚ) ^ k) := by
  have h := fetchGo_sleeps outcomes url maxRetries maxRetries 0
  simpa using h

/-! ## `_parse_user_data` and `_check_for_next_page` (user_scraper.py
273–363)

A page is modelled post-CSS-selection: for each element matched by
`USER_LIST_SELECTOR`, the raw text of the sub-elements matched by the
name/email/payment-status/join-date selectors (`none` when the selector
matches nothing), plus the raw text of the `.pagination-info` element and
whether the `"a.next-page, a.pagination-next, li.next:not(.disabled) a"`
selector matches some element. The `uuid.uuid4()` id and
`datetime.now()` scrape_date stamped on every parsed record are
environment-supplied values no claim depends on and are elided. -/

structure UserElem where
  nameText : Option (List Char)
  emailText : Option (List Char)
  paymentText : Option (List Char)
  joinDateText : Option (List Char)
deriving DecidableEq

structure UserPage where
  userElements : List UserElem
  paginationInfoText : Option (List Char)
  nextButtonPresent : Bool
deriving DecidableEq

/-- A Python dict value for the `paid` key: the parser stores a bool, but
`_process_user_data` and `User.validate` also accept a string there. -/
inductive PVal where
  | b (v : Bool)
  | s (t : List Char)
deriving DecidableEq

/-- One raw user record as built by `_parse_user_data` (`none` = key
absent from the dict). -/
structure RawUser where
  name : Option (List Char)
  email : Option (List Char)
  paid : Option PVal
  joinDate : Option (List Char)
deriving DecidableEq

/-- The per-element body of the parsing loop (user_scraper.py 295–326):
each present sub-element contributes its `get_text(strip=True)` text; the
payment status sets `paid` to whether the lowered text contains "paid" or
"success" as a substring (line 316). -/
def parseUserElem (e : UserElem) : RawUser :=
  { name := e.nameText.map trimStr,
    email := e.emailText.map trimStr,
    paid := e.paymentText.map (fun t =>
      let paymentText := lowerStr (trimStr t)
      PVal.b (containsSub "paid".data paymentText ||
              containsSub "success".data paymentText)),
    joinDate := e.joinDateText.map trimStr }

/-- The `try` block of `_check_for_next_page` (lines 355–361):
`parts = text.split("of")`, `current = int(parts[0].strip().split()[-1])`,
`total = int(parts[1].strip().split()[0])`; `none` where Python raises
`ValueError` or `IndexError` (which the source catches and ignores). -/
def parsePageOfInfo (text : List Char) : Option (ℤ × ℤ) :=
  match splitOnOf text with
  | p0 :: p1 :: _ => do
    let lastTok ← (wsSplit (trimStr p0)).getLast?
    let firstTok ← (wsSplit (trimStr p1)).head?
    let current ← parseIntPy lastTok
    let total ← parseIntPy firstTok
    pure (current, total)
  | _ => none

/-- `_check_for_next_page` (lines 336–363): if a `.pagination-info`
element exists and its lowered text contains "of", try to parse
"current of total" and return `current < total`; on any parse failure, or
without such an element, fall back to whether the next-control selector
matched. -/
def checkForNextPage (page : UserPage) : Bool :=
  match page.paginationInfoText with
  | some raw =>
    let text := trimStr raw
    if containsSub "of".data (lowerStr text) then
      match parsePageOfInfo text with
      | some (current, total) => decide (current < total)
      | none => page.nextButtonPresent
    else page.nextButtonPresent
  | none => page.nextButtonPresent

/-- `_parse_user_data`: the per-element records in page order, and the
has-next-page flag. -/
def parseUserData (page : UserPage) : List RawUser × Bool :=
  (page.userElements.map parseUserElem, checkForNextPage page)

/-! ## `_process_user_data` and `_validate_user_record` (user_scraper.py
365–464) -/

/-- Python `str.title()` on ASCII text: the first letter of each run of
letters is uppercased, the rest lowercased. -/
def titlePy (s : List Char) : List Char :=
  (s.foldl (fun (st : List Char × Bool) c =>
    if c.isAlpha then
      ((if st.2 then c.toLower else c.toUpper) :: st.1, true)
    else (c :: st.1, false)) ([], false)).1.reverse

/-- The string-to-bool coercion of `_process_user_data` (line 394):
`processed_user['paid'].lower() in ('true', 'yes', 'paid', 'success', '1')`. -/
def coercePaidProcess (t : List Char) : Bool :=
  ["true".data, "yes".data, "paid".data, "success".data, "1".data].contains (lowerStr t)

/-- A processed user record (timestamps elided as for `RawUser`; the
join-date reformatting of lines 397–419 only rewrites the `join_date`
string through `strptime`/`isoformat` and is left as the raw value here —
no claim concerns it). -/
structure ProcUser where
  name : Option (List Char)
  email : Option (List Char)
  paid : Option PVal
  joinDate : Option (List Char)
  emailValid : Option Bool
deriving DecidableEq

/-- The per-record body of `_process_user_data` (lines 378–430):
title-case the name, lower-case the email, coerce a string `paid` through
`coercePaidProcess`, set `email_valid` from the coarse `'@'`/`'.'`
containment check when a non-empty email is present. -/
def processUserRecord (u : RawUser) : ProcUser :=
  let em := u.email.map (fun e => lowerStr (trimStr e))
  { name := u.name.map (fun n => titlePy (trimStr n)),
    email := em,
    paid := match u.paid with
      | some (PVal.s t) => some (PVal.b (coercePaidProcess t))
      | v => v,
    joinDate := u.joinDate,
    emailValid := match em with
      | some e => if e.isEmpty then none else some (e.contains '@' && e.contains '.')
      | none => none }

/-- `_validate_user_record` (lines 445–464): the `id`/`scrape_date`
required fields are always stamped by the parser (and elided here), so
validity reduces to having a non-empty `name` or `email`. -/
def validateUserRecord (u : ProcUser) : Bool :=
  (match u.name with | some n => !n.isEmpty | none => false) ||
  (match u.email with | some e => !e.isEmpty | none => false)

/-- `_process_user_data` over the collected records: process each and
keep only the valid ones, in order. -/
def processUserData (us : List RawUser) : List ProcUser :=
  (us.map processUserRecord).filter validateUserRecord

/-- The `paid` coercion inside `User.validate` (data_models.py 244–247):
a string is converted with
`paid_text == 'true' or paid_text == 'yes' or paid_text == '1'`. -/
def userValidatePaid (v : PVal) : PVal :=
  match v with
  | PVal.s t =>
    let paidText := lowerStr t
    PVal.b (paidText == "true".data || paidText == "yes".data || paidText == "1".data)
  | b => b

/-! ## `_scrape_with_requests` (user_scraper.py 89–136)

`pages p` is the combined outcome of `_fetch_with_retry` on the page-`p`
URL followed by `_parse_user_data`: either the fetch-failed error (URL and
attempt count) escaping the retry wrapper, or the page's records and
has-next flag. The loop has no iteration bound in the source, so `fuel`
counts loop iterations and `none` models a run that executes more than
`fuel` iterations; the `time.sleep(REQUEST_DELAY)` politeness delay
between pages is not observable in the returned value and is elided. -/

def scrapeGo (pages : ℕ → Except (List Char × ℕ) (List RawUser × Bool)) :
    ℕ → ℕ → List RawUser → Option (Except (ℕ × (List Char × ℕ)) (List ProcUser))
  | 0, _, _ => none
  | fuel + 1, p, acc =>
    match pages p with
    | .error e => some (.error (p, e))
    | .ok (recs, hasNext) =>
      if hasNext then scrapeGo pages fuel (p + 1) (acc ++ recs)
      else some (.ok (processUserData (acc ++ recs)))

/-- `_scrape_with_requests`: page counter starts at 1 with an empty
accumulator; a page error raises `UserScrapingError` naming the page
(discarding the accumulator); otherwise records accumulate until
`has_next_page` is false, and the accumulated list is post-processed. -/
def scrapeWithRequests (pages : ℕ → Except (List Char × ℕ) (List RawUser × Bool))
    (fuel : ℕ) : Option (Except (ℕ × (List Char × ℕ)) (List ProcUser)) :=
  scrapeGo pages fuel 1 []

/-! ### Pagination failure semantics (C3) -/

theorem scrapeGo_abortErr (pages : ℕ → Except (List Char × ℕ) (List RawUser × Bool))
    (e : List Char × ℕ) : ∀ k fuel start acc, k + 1 ≤ fuel →
    (∀ j, j < k → ∃ recs, pages (start + j) = .ok (recs, true)) →
    pages (start + k) = .error e →
    scrapeGo pages fuel start acc = some (.error (start + k, e)) := by
  intro k
  induction k with
  | zero =>
    intro fuel start acc hfuel _ herr
    obtain ⟨f, rfl⟩ : ∃ f, fuel = f + 1 := ⟨fuel - 1, by omega⟩
    simp only [Nat.add_zero] at herr
    simp [scrapeGo, herr]
  | succ k ih =>
    intro fuel start acc hfuel hok herr
    obtain ⟨f, rfl⟩ : ∃ f, fuel = f + 1 := ⟨fuel - 1, by omega⟩
    obtain ⟨recs, hrec⟩ := hok 0 (Nat.succ_pos k)
    simp only [Nat.add_zero] at hrec
    have harith : start + (k + 1) = start + 1 + k := by omega
    rw [harith] at herr
    have h := ih f (start + 1) (acc ++ recs) (by omega)
      (by
        intro j hj
        have := hok (j + 1) (by omega)
        have ha : start + (j + 1) = start + 1 + j := by omega
        rwa [ha] at this)
      herr
    simp [scrapeGo, hrec, h, harith]

/-- C3: when the page-`k+1` fetch fails (e.g. retries exhausted) after `k`
successful pages, `_scrape_with_requests` raises the page error — the
whole collection aborts and the records accumulated from pages 1..k are
discarded, not returned. -/
theorem scrapeAbortsDiscardingPartial
    (pages : ℕ → Except (List Char × ℕ) (List RawUser × Bool))
    (fuel k : ℕ) (e : List Char × ℕ) :
    k + 1 ≤ fuel →
    (∀ p, 1 ≤ p → p ≤ k → ∃ recs, pages p = .ok (recs, true)) →
    pages (k + 1) = .error e →
    scrapeWithRequests pages fuel = some (.error (k + 1, e)) := by
  intro hfuel hok herr
  have h := scrapeGo_abortErr pages e k fuel 1 []
    hfuel
    (by intro j hj; exact hok (1 + j) (by omega) (by omega))
    (by rwa [Nat.add_comm 1 k])
  rw [Nat.add_comm 1 k] at h
  exact h

/-- Page outcomes where page 1 yields one record and signals a next page,
and every later page fails with the fetch-failed error. -/
def w3pages : ℕ → Except (List Char × ℕ) (List RawUser × Bool) :=
  fun p => if p = 1 then .ok ([⟨some "Alice".data, none, none, none⟩], true)
           else .error ("u".data, 3)

/-- Witness for C3: page 1 contributes a record, page 2 fails, and the
run returns the error for page 2 with no records. -/
theorem scrapeAbortsDiscardingPartial_witness :
    scrapeWithRequests w3pages 5 = some (.error (2, ("u".data, 3))) :=
  scrapeAbortsDiscardingPartial w3pages 5 1 ("u".data, 3) (by omega)
    (by
      intro p h1 h2
      have hp : p = 1 := by omega
      subst hp
      exact ⟨[⟨some "Alice".data, none, none, none⟩], rfl⟩)
    rfl

/-! ### Payment-status parsing (C5, C10) -/

/-- Page with a single user item whose payment-status text is "Unpaid". -/
def unpaidPage : UserPage :=
  { userElements := [⟨some "Bob".data, none, some "Unpaid".data, none⟩],
    paginationInfoText := none, nextButtonPresent := false }

/-- Counterexample to C5: the status text "Unpaid" is neither "paid" nor
"success" after trimming and lowering, yet the parser sets `paid = true`
for it — the code tests substring containment, not set membership, and it
sets `paid` to `false` (rather than leaving it unset) on a present but
non-matching status. -/
theorem paidExactMatch_counterexample :
    ((parseUserData unpaidPage).1.map RawUser.paid) = [some (PVal.b true)] ∧
    lowerStr (trimStr "Unpaid".data) ≠ "paid".data ∧
    lowerStr (trimStr "Unpaid".data) ≠ "success".data := by
  refine ⟨by decide, by decide, by decide⟩

/-- Page with two user items whose payment-status texts are "Paid" and
"Pending" (the example of the claim). -/
def paidPendingPage : UserPage :=
  { userElements :=
      [⟨some "A".data, none, some "Paid".data, none⟩,
       ⟨some "B".data, none, some "Pending".data, none⟩],
    paginationInfoText := none, nextButtonPresent := false }

/-- C5 (amended): when a payment-status element is present the parser
sets `paid` to whether the trimmed lower-cased text CONTAINS "paid" or
"success" as a substring (so a non-matching text yields `paid = false`,
not an unset field); `paid` is left unset only when the payment-status
element is absent. The claim's example still holds: statuses "Paid" and
"Pending" parse to `paid = true` and `paid = false`. -/
theorem paidSubstring_amended :
    (∀ e t, e.paymentText = some t →
      (parseUserElem e).paid = some (PVal.b
        (containsSub "paid".data (lowerStr (trimStr t)) ||
         containsSub "success".data (lowerStr (trimStr t))))) ∧
    (∀ e, e.paymentText = none → (parseUserElem e).paid = none) ∧
    ((parseUserData paidPendingPage).1.map RawUser.paid =
      [some (PVal.b true), some (PVal.b false)]) := by
  refine ⟨?_, ?_, by decide⟩
  · intro e t h
    simp [parseUserElem, h]
  · intro e h
    simp [parseUserElem, h]

/-- Witness for the amended C5: status text "Paid" parses to
`paid = true`. -/
theorem paidSubstring_amended_witness :
    (parseUserElem ⟨none, none, some "Paid".data, none⟩).paid = some (PVal.b true) := by
  have h := paidSubstring_amended.1 ⟨none, none, some "Paid".data, none⟩ "Paid".data rfl
  rw [h]
  decide

/-- C10: the parser decides paid status by substring containment — any
status text whose trimmed lower-cased form contains "paid" or "success"
as a substring yields `paid = true`. -/
theorem paidSubstringContainment (e : UserElem) (t : List Char) :
    e.paymentText = some t →
    (containsSub "paid".data (lowerStr (trimStr t)) = true ∨
     containsSub "success".data (lowerStr (trimStr t)) = true) →
    (parseUserElem e).paid = some (PVal.b true) := by
  intro h hc
  rcases hc with hc | hc <;> simp [parseUserElem, h, hc]

/-- Witness for C10: the text "Unpaid" contains "paid" as a substring, so
it parses to `paid = true`. -/
theorem paidSubstringContainment_witness :
    (parseUserElem ⟨none, none, some "Unpaid".data, none⟩).paid = some (PVal.b true) :=
  paidSubstringContainment ⟨none, none, some "Unpaid".data, none⟩ "Unpaid".data rfl
    (Or.inl (by decide))

/-! ### The two paid-coercion sites (C4) -/

/-- Counterexample to C4: the string "paid" coerces to `true` in
`_process_user_data` but `User.validate` coerces it to `false` — its
synonym tuple omits "paid" and "success" — so the coercion is not the
same at every site. -/
theorem paidCoercion_counterexample :
    userValidatePaid (PVal.s "paid".data) = PVal.b false ∧
    coercePaidProcess "paid".data = true ∧
    userValidatePaid (PVal.s "success".data) = PVal.b false := by
  refine ⟨by decide, by decide, by decide⟩

/-- C4 (amended): `_process_user_data` coerces a string `paid` to `true`
exactly when its lower-cased form is one of
{"true","yes","paid","success","1"}, but `User.validate` uses only
{"true","yes","1"}, mapping "paid" and "success" to `false`. -/
theorem paidCoercion_amended :
    (∀ u t, u.paid = some (PVal.s t) →
      (processUserRecord u).paid = some (PVal.b (decide (lowerStr t ∈
        ["true".data, "yes".data, "paid".data, "success".data, "1".data])))) ∧
    (∀ t, userValidatePaid (PVal.s t) = PVal.b (decide (lowerStr t ∈
        ["true".data, "yes".data, "1".data]))) := by
  constructor
  · intro u t h
    simp only [processUserRecord, h, coercePaidProcess]
    congr 2
    simp [List.contains, List.elem_eq_mem]
  · intro t
    simp only [userValidatePaid]
    congr 1
    simp only [List.mem_cons, List.not_mem_nil, or_false]
    cases hd : decide (lowerStr t = "true".data ∨ lowerStr t = "yes".data ∨ lowerStr t = "1".data) with
    | true =>
      have := of_decide_eq_true hd
      rcases this with h | h | h <;> simp [h]
    | false =>
      have := of_decide_eq_false hd
      push_neg at this
      simp only [Bool.or_eq_false_iff, beq_eq_false_iff_ne, ne_eq]
      exact ⟨⟨this.1, this.2.1⟩, this.2.2⟩

/-- Witness for the amended C4: a record whose `paid` is the string "yes"
is processed to `paid = true`. -/
theorem paidCoercion_amended_witness :
    (processUserRecord ⟨none, none, some (PVal.s "yes".data), none⟩).paid =
      some (PVal.b true) := by
  have h := paidCoercion_amended.1 ⟨none, none, some (PVal.s "yes".data), none⟩
    "yes".data rfl
  rw [h]
  decide

/-! ### Next-page detection (C9) -/

theorem isPrefixOf_map (f : Char → Char) :
    ∀ pat s : List Char, List.isPrefixOf pat s = true →
    List.isPrefixOf (pat.map f) (s.map f) = true := by
  intro pat
  induction pat with
  | nil => intro s _; simp [List.isPrefixOf]
  | cons a ps ih =>
    intro s h
    cases s with
    | nil => simp [List.isPrefixOf] at h
    | cons b ss =>
      simp only [List.isPrefixOf, Bool.and_eq_true, beq_iff_eq] at h
      simp only [List.map_cons, List.isPrefixOf, Bool.and_eq_true, beq_iff_eq]
      exact ⟨by rw [h.1], ih ss h.2⟩

theorem containsSub_map (f : Char → Char) :
    ∀ s pat : List Char, containsSub pat s = true →
    containsSub (pat.map f) (s.map f) = true := by
  intro s
  induction s with
  | nil =>
    intro pat h
    simp only [containsSub, List.isEmpty_iff] at h
    simp [h, containsSub]
  | cons c rest ih =>
    intro pat h
    simp only [containsSub, Bool.or_eq_true] at h
    simp only [List.map_cons, containsSub, Bool.or_eq_true]
    rcases h with h | h
    · exact Or.inl (by simpa using isPrefixOf_map f pat (c :: rest) h)
    · exact Or.inr (ih pat h)

theorem splitOnOf_no_sep :
    ∀ s : List Char, containsSub ['o', 'f'] s = false → splitOnOf s = [s] := by
  have key : ∀ n s, s.length ≤ n → containsSub ['o', 'f'] s = false → splitOnOf s = [s] := by
    intro n
    induction n with
    | zero =>
      intro s hlen _
      have : s = [] := List.eq_nil_of_length_eq_zero (Nat.le_zero.mp hlen)
      subst this
      rfl
    | succ n ih =>
      intro s hlen h
      match s with
      | [] => rfl
      | [c] => rfl
      | c1 :: c2 :: rest =>
        simp only [containsSub, Bool.or_eq_false_iff] at h
        have hnotsep : ¬(c1 = 'o' ∧ c2 = 'f') := by
          intro ⟨h1, h2⟩
          subst h1
          subst h2
          simp [List.isPrefixOf] at h
        have hrest : splitOnOf (c2 :: rest) = [c2 :: rest] := by
          apply ih (c2 :: rest) (by simp at hlen ⊢; omega)
          simp only [containsSub, Bool.or_eq_false_iff]
          exact h.2
        simp only [splitOnOf, hnotsep, if_false, hrest]
  intro s
  exact key s.length s (Nat.le_refl _)

/-- A definition following the claim's words for the has-next-page
decision: if a pagination-info element is present and its text splits on
the token "of" into two parseable integers, the result is
`current < total`; if that parse fails or the element is absent, fall
back to the presence of a CSS-matched, non-disabled next control. -/
def hasNextFromSpec (page : UserPage) : Bool :=
  match page.paginationInfoText with
  | some raw =>
    match parsePageOfInfo (trimStr raw) with
    | some (current, total) => decide (current < total)
    | none => page.nextButtonPresent
  | none => page.nextButtonPresent

/-- C9: `_check_for_next_page` implements exactly the claimed decision.
The source's extra guard — it only attempts the "current of total" parse
when the lowered text contains "of" — changes nothing: a text without
"of" cannot split into two parts, so the parse fails and both sides fall
back to the next-control signal. -/
theorem checkForNextPage_spec (page : UserPage) :
    checkForNextPage page = hasNextFromSpec page := by
  unfold checkForNextPage hasNextFromSpec
  cases hinfo : page.paginationInfoText with
  | none => rfl
  | some raw =>
    by_cases hof : containsSub "of".data (lowerStr (trimStr raw)) = true
    · simp [hof]
    · have hnc : containsSub "of".data (trimStr raw) = false := by
        by_contra hc
        have hc' : containsSub "of".data (trimStr raw) = true := by
          revert hc
          cases containsSub "of".data (trimStr raw) <;> simp
        have := containsSub_map Char.toLower (trimStr raw) "of".data hc'
        have hpat : "of".data.map Char.toLower = "of".data := by decide
        rw [hpat] at this
        exact hof this
      have hsplit := splitOnOf_no_sep (trimStr raw) hnc
      have hparse : parsePageOfInfo (trimStr raw) = none := by
        unfold parsePageOfInfo
        rw [hsplit]
      simp [eq_false_of_ne_true hof, hparse]

/-! ## Financial extraction and normalization (financial_scraper.py
231–346, data_models.py 250–366)

A Python dict value in the financial data dict is an int, a float, or a
string; `finNum` is the partial view Python's arithmetic/comparisons take
of it (a string operand raises `TypeError`, which the source catches). -/

inductive FinVal where
  | i (z : ℤ)
  | q (x : ℚ)
  | s (t : List Char)
deriving DecidableEq

def finNum : FinVal → Option ℚ
  | FinVal.i z => some (z : ℚ)
  | FinVal.q x => some x
  | FinVal.s _ => none

/-- The texts of the four metric elements of the analytics page (post
CSS-selection, `none` when the selector matches nothing; the derived
metrics have no selectors in `_parse_financial_data`). -/
structure FinPage where
  totalUsersText : Option (List Char)
  paidUsersText : Option (List Char)
  totalGmvText : Option (List Char)
  totalProfitText : Option (List Char)
deriving DecidableEq

/-- The financial data dict; the `timestamp`/`processed_at` fields are
wall-clock strings no claim depends on and are elided. -/
structure FinData where
  total_users : FinVal
  paid_users : FinVal
  total_gmv : FinVal
  total_profit : FinVal
  avg_revenue_per_user : FinVal
  conversion_rate : FinVal
deriving DecidableEq

/-- `re.sub(r'[^\d.]', '', s)` of `_convert_currency_to_float` (line 321):
strip every character that is not a digit or a dot. -/
def stripNonDigitDot (s : List Char) : List Char :=
  s.filter (fun c => isDigitChar c || c = '.')

/-- `_convert_currency_to_float` (financial_scraper.py 309–325): clean the
string, parse it as a float, and fall back to the default 0.0 (with a
logged warning, no exception) when the parse fails. -/
def convertCurrencyToFloat (s : List Char) : ℚ :=
  match parseFloatPy (stripNonDigitDot s) with
  | some q => q
  | none => 0

/-- The integer branch of `_extract_metric` (lines 295–300):
`int(value.replace(',', ''))`, storing the raw string when that fails. -/
def parseCountPy (t : List Char) : Option ℤ :=
  parseIntPy (t.filter (fun c => c != ','))

/-- `_extract_metric` without `convert_to_float`: keep the current value
when the selector matches nothing, else parse the trimmed text as an int,
storing the string itself on failure. -/
def extractCount (cur : FinVal) (txt : Option (List Char)) : FinVal :=
  match txt with
  | none => cur
  | some raw =>
    let value := trimStr raw
    match parseCountPy value with
    | some z => FinVal.i z
    | none => FinVal.s value

/-- `_extract_metric` with `convert_to_float`: keep the current value when
the selector matches nothing, else convert the trimmed text through
`_convert_currency_to_float` (which never fails). -/
def extractMoney (cur : FinVal) (txt : Option (List Char)) : FinVal :=
  match txt with
  | none => cur
  | some raw => FinVal.q (convertCurrencyToFloat (trimStr raw))

/-- The conversion-rate statement of `_calculate_derived_metrics` (lines
340–341): `round((paid_users / total_users) * 100, 2)` guarded by
`total_users > 0`; a string-typed `total_users` raises inside the `try`
and leaves the dict as is. -/
def convRateStep (p : ℚ) (d : FinData) : FinData :=
  match finNum d.total_users with
  | none => d
  | some tu =>
    if tu > 0 then { d with conversion_rate := FinVal.q (round2 (p / tu * 100)) }
    else d

/-- `_calculate_derived_metrics` (financial_scraper.py 327–346): the whole
body is one `try` whose exceptions are swallowed, so a `TypeError` raised
partway keeps the updates already made and skips the rest. -/
def calculateDerivedMetrics (d : FinData) : FinData :=
  match finNum d.paid_users with
  | none => d
  | some p =>
    if p > 0 then
      match finNum d.total_gmv with
      | none => d
      | some g =>
        convRateStep p { d with avg_revenue_per_user := FinVal.q (round2 (g / p)) }
    else convRateStep p d

/-- `_parse_financial_data` (lines 231–271): start from the integer/float
zero defaults, extract the four base metrics, and recompute the derived
metrics. -/
def parseFinancialData (page : FinPage) : FinData :=
  calculateDerivedMetrics
    { total_users := extractCount (FinVal.i 0) page.totalUsersText,
      paid_users := extractCount (FinVal.i 0) page.paidUsersText,
      total_gmv := extractMoney (FinVal.q 0) page.totalGmvText,
      total_profit := extractMoney (FinVal.q 0) page.totalProfitText,
      avg_revenue_per_user := FinVal.q 0,
      conversion_rate := FinVal.q 0 }

/-- `FinancialMetrics.calculate_derived_metrics` (data_models.py 349–366):
both derived fields are assigned unconditionally — the quotient when the
denominator count is positive, 0.0 otherwise — overwriting whatever value
the fields held. -/
def modelCalculateDerivedMetrics (total_gmv : ℚ) (paid_users total_users : ℤ) :
    ℚ × ℚ :=
  ((if 0 < paid_users then round2 (total_gmv / (paid_users : ℚ)) else 0),
   (if 0 < total_users then round2 ((paid_users : ℚ) / (total_users : ℚ) * 100) else 0))

/-- The analytics page of the claim's example: metric texts "500", "350",
"$50,000", "$35,000". -/
def finExamplePage : FinPage :=
  ⟨some "500".data, some "350".data, some "$50,000".data, some "$35,000".data⟩

theorem round2_example_avg : round2 ((1000 : ℚ) / 7) = 7143/50 := by
  norm_num [round2]

theorem round2_example_conv : round2 (70 : ℚ) = 70 := by
  norm_num [round2]

unseal Rat.mul Rat.inv Rat.add Rat.sub in
/-- C6: on the example inputs, normalization strips the currency symbols
("$50,000" becomes 50000.0) and recomputes the derived metrics as
avg = round2(50000/350) = 142.86 and conversion = round2(350/500·100)
= 70.0; the model's `calculate_derived_metrics` yields 0.0 for a zero
denominator count, and the scraper's recomputation overwrites whatever
value the derived fields previously held. -/
theorem financialNormalizationExample :
    parseFinancialData finExamplePage =
      ⟨FinVal.i 500, FinVal.i 350, FinVal.q 50000, FinVal.q 35000,
       FinVal.q (14286/100), FinVal.q 70⟩ ∧
    (∀ gmv total, (modelCalculateDerivedMetrics gmv 0 total).1 = 0) ∧
    (∀ gmv paid, (modelCalculateDerivedMetrics gmv paid 0).2 = 0) ∧
    (∀ d : FinData,
      (calculateDerivedMetrics
        { d with total_users := FinVal.i 500, paid_users := FinVal.i 350,
                 total_gmv := FinVal.q 50000 }).avg_revenue_per_user =
        FinVal.q (14286/100) ∧
      (calculateDerivedMetrics
        { d with total_users := FinVal.i 500, paid_users := FinVal.i 350,
                 total_gmv := FinVal.q 50000 }).conversion_rate = FinVal.q 70) := by
  refine ⟨by decide, ?_, ?_, ?_⟩
  · intro gmv total
    simp [modelCalculateDerivedMetrics]
  · intro gmv paid
    simp [modelCalculateDerivedMetrics]
  · intro d
    cases d
    constructor
    · simp only [calculateDerivedMetrics, finNum, convRateStep]
      norm_num [round2_example_avg]
    · simp only [calculateDerivedMetrics, finNum, convRateStep]
      norm_num [round2_example_conv]

/-! ## `FinancialMetrics.validate` (data_models.py 296–347)

Records are modelled with the required numeric fields present (the
scraper always supplies them) and the two derived fields optional; the
`id`/`created_at`/`timestamp` strings required by the base validation are
always stamped before validation and carry no constraint beyond being
strings, so they are elided. Python `int(x)` on a float truncates toward
zero; on a string it accepts an optionally signed run of digits. -/

/-- Python `int(x)` for a float `x`: truncation toward zero. -/
def truncQ (x : ℚ) : ℤ := if 0 ≤ x then Int.floor x else Int.ceil x

/-- `int(data[field])` on a dict value, `none` where Python raises. -/
def intCoercePy : FinVal → Option ℤ
  | FinVal.i z => some z
  | FinVal.q x => some (truncQ x)
  | FinVal.s t => parseIntPy t

/-- `float(data[field])` on a dict value, `none` where Python raises. -/
def floatCoercePy : FinVal → Option ℚ
  | FinVal.i z => some (z : ℚ)
  | FinVal.q x => some x
  | FinVal.s t => parseFloatPy t

/-- The coercion for an optional field: an absent field is left absent,
a present one must coerce. -/
def optFloatCoerce : Option FinVal → Option (Option ℚ)
  | none => some none
  | some v => (floatCoercePy v).map some

/-- The `ValidationError`s `FinancialMetrics.validate` can raise, by the
check that raises them. -/
inductive VErr where
  | totalUsersCoerce
  | paidUsersCoerce
  | floatCoerce (field : List Char)
  | totalUsersNeg
  | paidUsersNeg
  | totalGmvNeg
  | conversionRange
deriving DecidableEq

/-- Input to `FinancialMetrics.validate`: the required numeric fields
(as raw dict values) and the optional derived fields. -/
structure FinRecordIn where
  total_users : FinVal
  paid_users : FinVal
  total_gmv : FinVal
  total_profit : FinVal
  avg_revenue_per_user : Option FinVal
  conversion_rate : Option FinVal
deriving DecidableEq

/-- The record after validation's in-place numeric coercions. -/
structure FinRecordOut where
  total_users : ℤ
  paid_users : ℤ
  total_gmv : ℚ
  total_profit : ℚ
  avg_revenue_per_user : Option ℚ
  conversion_rate : Option ℚ
deriving DecidableEq

/-- `FinancialMetrics.validate` (data_models.py 296–347): coerce
`total_users`/`paid_users` to int and the four float fields to float
(raising `ValidationError` on failure), run the base type validation
(trivially satisfied after coercion), then reject negative
`total_users`/`paid_users`/`total_gmv` and a `conversion_rate` outside
[0, 100]; `total_profit` may be negative. -/
def financialValidate (r : FinRecordIn) : Except VErr FinRecordOut :=
  match intCoercePy r.total_users with
  | none => .error VErr.totalUsersCoerce
  | some tu =>
    match intCoercePy r.paid_users with
    | none => .error VErr.paidUsersCoerce
    | some pu =>
      match floatCoercePy r.total_gmv with
      | none => .error (VErr.floatCoerce "total_gmv".data)
      | some gmv =>
        match floatCoercePy r.total_profit with
        | none => .error (VErr.floatCoerce "total_profit".data)
        | some profit =>
          match optFloatCoerce r.avg_revenue_per_user with
          | none => .error (VErr.floatCoerce "avg_revenue_per_user".data)
          | some avg =>
            match optFloatCoerce r.conversion_rate with
            | none => .error (VErr.floatCoerce "conversion_rate".data)
            | some conv =>
              if tu < 0 then .error VErr.totalUsersNeg
              else if pu < 0 then .error VErr.paidUsersNeg
              else if gmv < 0 then .error VErr.totalGmvNeg
              else
                match conv with
                | some c =>
                  if c < 0 ∨ c > 100 then .error VErr.conversionRange
                  else .ok ⟨tu, pu, gmv, profit, avg, conv⟩
                | none => .ok ⟨tu, pu, gmv, profit, avg, none⟩

/-- The simultaneous coercion of all six numeric fields, `none` when any
one fails. -/
def finCoerceAll (r : FinRecordIn) :
    Option (ℤ × ℤ × ℚ × ℚ × Option ℚ × Option ℚ) :=
  match intCoercePy r.total_users, intCoercePy r.paid_users,
      floatCoercePy r.total_gmv, floatCoercePy r.total_profit,
      optFloatCoerce r.avg_revenue_per_user, optFloatCoerce r.conversion_rate with
  | some tu, some pu, some g, some pr, some avg, some conv =>
    some (tu, pu, g, pr, avg, conv)
  | _, _, _, _, _, _ => none

/-- Counterexample to C7: the unparsable currency string "N/A" does not
raise anywhere in the scraper path — `_convert_currency_to_float`
replaces it by the default 0.0 (its except branch returns 0.0 after a
logged warning), contradicting the claim that an unparsable currency
string causes a ValidationError rather than a default value. -/
theorem currencyDefault_counterexample :
    convertCurrencyToFloat "N/A".data = 0 ∧
    parseFloatPy (stripNonDigitDot "N/A".data) = none := by
  exact ⟨by decide, by decide⟩

/-- C7 (amended): `FinancialMetrics.validate` (on records with the
required fields present) succeeds exactly when every numeric field
coerces and `total_users`, `paid_users`, `total_gmv` are non-negative and
a present `conversion_rate` lies in [0, 100] — so it raises exactly under
the claimed conditions; however, in the scraper's extraction path an
unparsable currency string is replaced by the default 0.0 by
`_convert_currency_to_float` and never raises. -/
theorem financialValidate_amended :
    (∀ r : FinRecordIn,
      (financialValidate r).isOk = true ↔
        ∃ tu pu g pr avg conv,
          finCoerceAll r = some (tu, pu, g, pr, avg, conv) ∧
          0 ≤ tu ∧ 0 ≤ pu ∧ 0 ≤ g ∧
          (∀ c, conv = some c → 0 ≤ c ∧ c ≤ 100)) ∧
    (∀ s, parseFloatPy (stripNonDigitDot s) = none → convertCurrencyToFloat s = 0) := by
  constructor
  · intro r
    cases h1 : intCoercePy r.total_users with
    | none => simp [financialValidate, finCoerceAll, h1, Except.isOk, Except.toBool]
    | some tu =>
    cases h2 : intCoercePy r.paid_users with
    | none => simp [financialValidate, finCoerceAll, h1, h2, Except.isOk, Except.toBool]
    | some pu =>
    cases h3 : floatCoercePy r.total_gmv with
    | none => simp [financialValidate, finCoerceAll, h1, h2, h3, Except.isOk, Except.toBool]
    | some g =>
    cases h4 : floatCoercePy r.total_profit with
    | none => simp [financialValidate, finCoerceAll, h1, h2, h3, h4, Except.isOk, Except.toBool]
    | some pr =>
    cases h5 : optFloatCoerce r.avg_revenue_per_user with
    | none => simp [financialValidate, finCoerceAll, h1, h2, h3, h4, h5, Except.isOk, Except.toBool]
    | some avg =>
    cases h6 : optFloatCoerce r.conversion_rate with
    | none => simp [financialValidate, finCoerceAll, h1, h2, h3, h4, h5, h6, Except.isOk, Except.toBool]
    | some conv =>
    simp only [financialValidate, finCoerceAll, h1, h2, h3, h4, h5, h6,
      Option.some.injEq, Prod.mk.injEq]
    by_cases htu : tu < 0
    · simp only [htu, if_true]
      constructor
      · intro hcon
        simp [Except.isOk, Except.toBool] at hcon
      · rintro ⟨tu', pu', g', pr', avg', conv', ⟨rfl, rfl, rfl, rfl, rfl, rfl⟩,
          h0tu, h0pu, h0g, hconv⟩
        omega
    · by_cases hpu : pu < 0
      · simp only [htu, hpu, if_true, if_false]
        constructor
        · intro hcon
          simp [Except.isOk, Except.toBool] at hcon
        · rintro ⟨tu', pu', g', pr', avg', conv', ⟨rfl, rfl, rfl, rfl, rfl, rfl⟩,
            h0tu, h0pu, h0g, hconv⟩
          omega
      · by_cases hg : g < 0
        · simp only [htu, hpu, hg, if_true, if_false]
          constructor
          · intro hcon
            simp [Except.isOk, Except.toBool] at hcon
          · rintro ⟨tu', pu', g', pr', avg', conv', ⟨rfl, rfl, rfl, rfl, rfl, rfl⟩,
              h0tu, h0pu, h0g, hconv⟩
            linarith
        · cases conv with
          | none =>
            simp only [htu, hpu, hg, if_false]
            constructor
            · intro _
              refine ⟨tu, pu, g, pr, avg, none, ⟨rfl, rfl, rfl, rfl, rfl, rfl⟩,
                by omega, by omega, by linarith, ?_⟩
              intro c hc
              cases hc
            · intro _
              simp [Except.isOk, Except.toBool]
          | some c =>
            by_cases hc : c < 0 ∨ c > 100
            · simp only [htu, hpu, hg, hc, if_true, if_false]
              constructor
              · intro hcon
                simp [Except.isOk, Except.toBool] at hcon
              · rintro ⟨tu', pu', g', pr', avg', conv', ⟨rfl, rfl, rfl, rfl, rfl, rfl⟩,
                  h0tu, h0pu, h0g, hconv⟩
                have := hconv c rfl
                rcases hc with hc | hc
                · linarith [this.1]
                · linarith [this.2]
            · simp only [htu, hpu, hg, hc, if_false]
              constructor
              · intro _
                push_neg at hc
                refine ⟨tu, pu, g, pr, avg, some c, ⟨rfl, rfl, rfl, rfl, rfl, rfl⟩,
                  by omega, by omega, by linarith, ?_⟩
                intro c' hc'
                cases hc'
                exact ⟨by linarith [hc.1], by linarith [hc.2]⟩
              · intro _
                simp [Except.isOk, Except.toBool]
  · intro s hs
    simp [convertCurrencyToFloat, hs]

/-- A well-formed raw financial record: counts from strings and ints,
a parseable currency-free GMV string, a negative profit (allowed), and
an in-range conversion rate. -/
def finRecordExample : FinRecordIn :=
  ⟨FinVal.s "500".data, FinVal.i 350, FinVal.s "50000.5".data, FinVal.q (-5),
   some (FinVal.i 3), some (FinVal.s "70".data)⟩

unseal Rat.mul Rat.inv Rat.add Rat.sub in
/-- Witness for the amended C7: a concrete record that validates, and the
default-0.0 behaviour at the concrete string "N/A". -/
theorem financialValidate_amended_witness :
    (∃ tu pu g pr avg conv,
      finCoerceAll finRecordExample = some (tu, pu, g, pr, avg, conv) ∧
      0 ≤ tu ∧ 0 ≤ pu ∧ 0 ≤ g ∧
      (∀ c, conv = some c → 0 ≤ c ∧ c ≤ 100)) ∧
    convertCurrencyToFloat "N/A".data = 0 :=
  ⟨(financialValidate_amended.1 finRecordExample).mp (by decide),
   financialValidate_amended.2 "N/A".data (by decide)⟩
